import Mathlib

/-!
Verification of the `affect` repository build script (`setup.py`) and of the
mesh-connectivity computation core its extensions package.

The first part (`Setup`) is a shallow embedding of `setup.py`: the extension
declarations, the platform-dependent environment mutation, the monkey-patched
`parallel_c_compile` replacing `distutils.ccompiler.CCompiler.compile`, the
numpy include-directory injection of `BuildExtensions.run`, and the fallback
binding of the Cython build entry point.
-/

namespace Setup

/-- One entry of the `build` mapping returned by `_setup_compile`: for an
object file name, its source file and source extension. -/
structure BuildEntry where
  src : String
  ext : String
deriving DecidableEq, Repr

/-- One recorded invocation of the low-level `self._compile(obj, src, ext, ...)`
compiler call. -/
structure CompileCall where
  obj : String
  src : String
  ext : String
deriving DecidableEq, Repr

/-- A Python exception that can escape a call. -/
inductive PyError
  | keyError
  | importError
deriving DecidableEq, Repr

/-- The per-object worker `_single_compile` defined inside `parallel_c_compile`:
`try: src, ext = build[obj]` / `except KeyError: return`, then
`self._compile(obj, src, ext, cc_args, extra_postargs, pp_opts)`.
The Python return value (always `None`, modelled as `Unit`) is paired with the
list of compiler invocations performed; the `KeyError` raised by a missing
`build` entry is caught, so no exception escapes. -/
def single_compile (build : List (String × BuildEntry)) (obj : String) :
    Except PyError (Unit × List CompileCall) :=
  match build.lookup obj with
  | none => .ok ((), [])
  | some e => .ok ((), [⟨obj, e.src, e.ext⟩])

/-- The compiler invocations `_single_compile` performs on one object. -/
def callsFor (build : List (String × BuildEntry)) (obj : String) : List CompileCall :=
  match build.lookup obj with
  | none => []
  | some e => [⟨obj, e.src, e.ext⟩]

/-- The sequential `distutils.ccompiler.CCompiler.compile` loop that
`parallel_c_compile` replaces: for each object in order, look it up in `build`,
compile it (skipping missing entries), and finally return `objects`. -/
def sequential_compile (build : List (String × BuildEntry)) (objects : List String) :
    List String × List CompileCall :=
  (objects, objects.flatMap (callsFor build))

/-- `NUMBER_PARALLEL_COMPILES = 4` from setup.py. -/
def NUMBER_PARALLEL_COMPILES : Nat := 4

/-- The worker count of the `multiprocessing.pool.ThreadPool` created by
`parallel_c_compile`. -/
def threadPoolSize : Nat := NUMBER_PARALLEL_COMPILES

/-- The monkey-patch `parallel_c_compile`: it runs `_setup_compile`, then
`list(ThreadPool(NUMBER_PARALLEL_COMPILES).imap(_single_compile, objects))` -
the `list(...)` forces every per-object task to finish before the function
returns `objects`. A `schedule` records the order in which the pool's worker
threads happen to run the per-object tasks; it is a permutation of `objects`. -/
def parallel_c_compile (build : List (String × BuildEntry)) (objects : List String)
    (schedule : List String) : List String × List CompileCall :=
  (objects, schedule.flatMap (callsFor build))

/-- The observable effect of one compile call on the output filesystem: object
file `c.obj` now holds the compilation of source `(c.src, c.ext)`. -/
def applyCall (fs : String → Option (String × String)) (c : CompileCall) :
    String → Option (String × String) :=
  fun k => if k = c.obj then some (c.src, c.ext) else fs k

/-- The filesystem after a sequence of compile calls. -/
def applyCalls (calls : List CompileCall) (fs : String → Option (String × String)) :
    String → Option (String × String) :=
  calls.foldl applyCall fs

/-- A setuptools `Extension` declaration, with the keyword fields used by
setup.py. -/
structure Extension where
  name : String
  sources : List String
  include_dirs : List String
  libraries : List String
  library_dirs : List String
  extra_compile_args : List String
  extra_link_args : List String
  language : String
deriving DecidableEq, Repr

/-- The `affect.exodus` Extension declared in setup.py; `other_include` and
`other_library` are the platform-specific directories computed at module
load. -/
def exodusExtension (other_include other_library : String) : Extension where
  name := "affect.exodus"
  sources := ["affect/exodus.pyx"]
  include_dirs := [other_include]
  libraries := ["iomp5", "exoIIv2c"]
  library_dirs := [other_library]
  extra_compile_args :=
    ["-I../exodus/exodus/cbind/include/", "-stdlib=libc++", "-mmacosx-version-min=10.11",
     "-fopenmp", "-Wno-unused-function", "-Wno-sometimes-uninitialized",
     "-Wno-unreachable-code"]
  extra_link_args :=
    ["-L/usr/local/opt/llvm/lib", "-L../exodus/exodus/cbind/", "-mmacosx-version-min=10.11"]
  language := "c++"

/-- `connect_include = 'c-mesh'` from setup.py. -/
def connect_include : String := "c-mesh"

/-- `connect_source_files`: the pyx source plus the result of
`glob.glob('c-mesh/*.cpp')`, which depends on the checkout and is therefore a
parameter. -/
def connect_source_files (cmeshSources : List String) : List String :=
  ["affect/connect.pyx"] ++ cmeshSources

/-- The `affect.connect` Extension declared in setup.py. -/
def connectExtension (other_include other_library : String)
    (cmeshSources : List String) : Extension where
  name := "affect.connect"
  sources := connect_source_files cmeshSources
  include_dirs := [connect_include, other_include]
  libraries := ["iomp5"]
  library_dirs := [other_library]
  extra_compile_args :=
    ["-stdlib=libc++", "-mmacosx-version-min=10.11", "-fopenmp",
     "-Wno-unused-function", "-Wno-unneeded-internal-declaration", "-Wno-unused-variable"]
  extra_link_args := ["-L/usr/local/opt/llvm/lib", "-mmacosx-version-min=10.11"]
  language := "c++"

/-- The `extensions` list of setup.py. -/
def extensions (other_include other_library : String)
    (cmeshSources : List String) : List Extension :=
  [exodusExtension other_include other_library,
   connectExtension other_include other_library cmeshSources]

/-- Which function is installed as the `distutils.ccompiler.CCompiler.compile`
class attribute. -/
inductive CompileImpl
  | distutilsSequential
  | parallelCCompile
deriving DecidableEq, Repr

/-- The process-wide state setup.py mutates at import: `os.environ` and the
`CCompiler.compile` class attribute. -/
structure ProcessState where
  env : String → Option String
  ccompilerCompile : CompileImpl

/-- `os.environ[key] = value`. -/
def setEnv (env : String → Option String) (key value : String) :
    String → Option String :=
  fun k => if k = key then some value else env k

/-- The process-wide effects of importing setup.py: the `sys.platform` branch
overwrites `os.environ['CC']` and `os.environ['CXX']` ('gcc' on linux, linux2
and win32; 'clang' on darwin; nothing on an unrecognized platform), and the
`CCompiler.compile` monkey-patch is installed unconditionally. -/
def loadModule (platform : String) (s : ProcessState) : ProcessState :=
  let s1 : ProcessState :=
    if platform = "linux" ∨ platform = "linux2" then
      { s with env := setEnv (setEnv s.env "CC" "gcc") "CXX" "gcc" }
    else if platform = "darwin" then
      { s with env := setEnv (setEnv s.env "CC" "clang") "CXX" "clang" }
    else if platform = "win32" then
      { s with env := setEnv (setEnv s.env "CC" "gcc") "CXX" "gcc" }
    else s
  { s1 with ccompilerCompile := .parallelCCompile }

/-- The platforms for which setup.py has an environment branch. -/
def recognizedPlatforms : List String := ["linux", "linux2", "darwin", "win32"]

/-- The compiler name written into both `CC` and `CXX` on each recognized
platform. -/
def compilerFor (platform : String) : String :=
  if platform = "darwin" then "clang" else "gcc"

/-- A process state before the import, for concrete evaluation. -/
def emptyState : ProcessState :=
  { env := fun _ => none, ccompilerCompile := .distutilsSequential }

/-- The include-directory injection from `BuildExtensions.run`: append numpy's
include directory to `ext.include_dirs` only if it is absent. -/
def injectNumpyInclude (numpy_includes : String) (dirs : List String) : List String :=
  if numpy_includes ∈ dirs then dirs else dirs ++ [numpy_includes]

/-- The loop of `BuildExtensions.run` over `self.extensions`; `none` models an
extension without an `include_dirs` attribute (the `hasattr` guard). -/
def runInjection (numpy_includes : String) (exts : List (Option (List String))) :
    List (Option (List String)) :=
  exts.map (fun d =>
    match d with
    | none => none
    | some dirs => some (injectNumpyInclude numpy_includes dirs))

/-- How the name `cythonize` got bound at module load: directly to
`Cython.Build.cythonize`, or to the fallback `def cythonize(*args, **kwargs)`
defined in the `except ImportError` branch. -/
inductive CythonizeBinding
  | direct
  | fallback
deriving DecidableEq, Repr

/-- The `try: from Cython.Build import cythonize / except ImportError:`
prologue: it binds a callable and never lets the ImportError escape. -/
def bindCythonize (availableAtLoad : Bool) : Except PyError CythonizeBinding :=
  if availableAtLoad then .ok .direct else .ok .fallback

/-- Calling the bound `cythonize`: the direct binding is the real
`Cython.Build.cythonize` (`real`); the fallback imports it at call time
(raising ImportError only if Cython is still missing then) and forwards its
arguments unchanged. -/
def callCythonize {α β : Type} (real : α → β) (b : CythonizeBinding)
    (availableAtCall : Bool) (a : α) : Except PyError β :=
  match b with
  | .direct => .ok (real a)
  | .fallback => if availableAtCall then .ok (real a) else .error .importError

end Setup

/-!
The second part (`Connect`) concerns the mesh-connectivity computation of the
`affect.connect` extension. Its C++ sources (`c-mesh/*.cpp`) and the binding
`affect/connect.pyx` are referenced by the build script but are not part of
the available sources, so the computation is modelled from the specification:
the Topology Catalog, Incidence Builder, Face Key Generator, Adjacency
Resolver and Parallel Coordinator, with the documented determinism, error and
symmetry policies.
-/

namespace Connect

/-- Equality of `Except` results is decidable when both components are. -/
instance {e a : Type} [DecidableEq e] [DecidableEq a] : DecidableEq (Except e a)
  | .error x, .error y =>
    if h : x = y then .isTrue (by rw [h]) else .isFalse (fun hc => h (Except.error.inj hc))
  | .error _, .ok _ => .isFalse (fun hc => Except.noConfusion hc)
  | .ok _, .error _ => .isFalse (fun hc => Except.noConfusion hc)
  | .ok x, .ok y =>
    if h : x = y then .isTrue (by rw [h]) else .isFalse (fun hc => h (Except.ok.inj hc))

/-- Modelled from the spec: a Topology Descriptor from the Topology Catalog
(missing source: c-mesh). `faces` lists, for each local face, the ordered
local node positions forming it. -/
structure TopoDescriptor where
  numNodes : Nat
  faces : List (List Nat)
deriving DecidableEq, Repr

/-- Modelled from the spec: the Topology Catalog (missing source: c-mesh), a
pure lookup from topology tags to descriptors; an unknown tag has no entry. -/
abbrev Catalog := List (String × TopoDescriptor)

/-- Modelled from the spec: an Element Block (missing source: c-mesh): a
topology tag and the per-element global node-index tuples. -/
structure ElementBlock where
  topology : String
  elems : List (List Nat)
deriving DecidableEq, Repr

/-- Modelled from the spec: a Mesh (missing source: c-mesh): node count and
ordered element blocks. -/
structure Mesh where
  numNodes : Nat
  blocks : List ElementBlock
deriving DecidableEq, Repr

/-- Modelled from the spec: the fatal error taxonomy (missing source: c-mesh);
`UnsupportedTopology` identifies the offending block and tag. -/
inductive ConnectError
  | UnsupportedTopology (blockIndex : Nat) (tag : String)
deriving DecidableEq, Repr

/-- Modelled from the spec: the recoverable diagnostics accumulated alongside
a successful result (missing source: c-mesh). -/
inductive Diagnostic
  | DegenerateFace (elem face : Nat)
  | InconsistentOrientation (elemA faceA elemB faceB : Nat)
deriving DecidableEq, Repr

/-- Modelled from the spec: one element of the global element index space
after catalog resolution: its descriptor and global node-index tuple. -/
structure Element where
  topo : TopoDescriptor
  nodes : List Nat
deriving DecidableEq, Repr

/-- Modelled from the spec: resolve each block's topology tag through the
catalog, concatenating blocks into the global element index space; the first
block with an unregistered tag aborts with `UnsupportedTopology` (missing
source: c-mesh). -/
def resolveBlocksFrom (cat : Catalog) : Nat → List ElementBlock → Except ConnectError (List Element)
  | _, [] => .ok []
  | i, b :: bs =>
    match cat.lookup b.topology with
    | none => .error (.UnsupportedTopology i b.topology)
    | some d =>
      match resolveBlocksFrom cat (i + 1) bs with
      | .error e => .error e
      | .ok rest => .ok (b.elems.map (fun ns => ⟨d, ns⟩) ++ rest)

/-- Modelled from the spec: the global element list of a mesh (missing source:
c-mesh). -/
def resolveBlocks (cat : Catalog) (m : Mesh) : Except ConnectError (List Element) :=
  resolveBlocksFrom cat 0 m.blocks

/-- Modelled from the spec: the Incidence Builder bucket of one node (missing
source: c-mesh): the (elementIndex, localNodePosition) pairs referencing the
node, in global element-index order then local-position order. -/
def nodeBucket (elems : List (Nat × Element)) (n : Nat) : List (Nat × Nat) :=
  elems.flatMap (fun p =>
    p.2.nodes.enum.filterMap (fun q => if q.2 = n then some (p.1, q.1) else none))

/-- Modelled from the spec: the Node-to-Element Map over all nodes (missing
source: c-mesh). -/
def nodeToElem (numNodes : Nat) (elems : List (Nat × Element)) : List (List (Nat × Nat)) :=
  (List.range numNodes).map (nodeBucket elems)

/-- Modelled from the spec: the Face Key Generator's orientation-preserving
global node list of local face `f` of an element (missing source: c-mesh). -/
def faceNodes (el : Element) (f : Nat) : List Nat :=
  (el.topo.faces.getD f []).map (fun p => el.nodes.getD p 0)

/-- Modelled from the spec: a Face Key, the sorted global node indices of a
face (missing source: c-mesh). -/
def faceKey (el : Element) (f : Nat) : List Nat :=
  List.insertionSort (· ≤ ·) (faceNodes el f)

/-- Modelled from the spec: one (Face Key, element, local face) contribution
handed to the Adjacency Resolver, keeping the original orientation-preserving
node order (missing source: c-mesh). -/
structure FaceContribution where
  elem : Nat
  face : Nat
  key : List Nat
  nodes : List Nat
deriving DecidableEq, Repr

/-- Modelled from the spec: the contribution of local face `f` of element `e`
(missing source: c-mesh). -/
def contribOf (el : Element) (e f : Nat) : FaceContribution :=
  ⟨e, f, faceKey el f, faceNodes el f⟩

/-- Modelled from the spec: the complete contribution multiset over the
(enumerated) global element list (missing source: c-mesh). -/
def contributions (elems : List (Nat × Element)) : List FaceContribution :=
  elems.flatMap (fun p =>
    (List.range p.2.topo.faces.length).map (fun f => contribOf p.2 p.1 f))

/-- Modelled from the spec: an Adjacency Record for one local face of one
element (missing source: c-mesh). -/
inductive FaceRecord
  | boundary
  | unresolved
  | interior (neighborElem neighborFace : Nat)
  | nonManifold (neighbors : List (Nat × Nat))
deriving DecidableEq, Repr

/-- Modelled from the spec: the Adjacency Resolver's classification of one
contribution against the full group sharing its Face Key (missing source:
c-mesh): a degenerate face (repeated node indices) is unresolved; a group of
one is boundary; a group of two is an interior manifold pair; three or more
are non-manifold, listed by ascending global element index. -/
def classify (contribs : List FaceContribution) (c : FaceContribution) : FaceRecord :=
  if c.nodes.Nodup then
    match (contribs.filter (fun c2 => decide (c2.key = c.key))).filter
        (fun c2 => decide ((c2.elem, c2.face) ≠ (c.elem, c.face))) with
    | [] => .boundary
    | [c2] => .interior c2.elem c2.face
    | others => .nonManifold
        (List.insertionSort (fun a b => a.1 < b.1 ∨ (a.1 = b.1 ∧ a.2 ≤ b.2))
          (others.map (fun c2 => (c2.elem, c2.face))))
  else .unresolved

/-- Modelled from the spec: the Adjacency Records of one element (missing
source: c-mesh). -/
def elementRecords (contribs : List FaceContribution) (e : Nat) (el : Element) :
    List FaceRecord :=
  (List.range el.topo.faces.length).map (fun f => classify contribs (contribOf el e f))

/-- Modelled from the spec: all Adjacency Records of the mesh (missing source:
c-mesh). -/
def adjacency (elems : List (Nat × Element)) : List (List FaceRecord) :=
  elems.map (fun p => elementRecords (contributions elems) p.1 p.2)

/-- Modelled from the spec: whether two orientation-preserving node orders of
a shared face are reverse-cyclic permutations of each other (missing source:
c-mesh). -/
def isReverseCyclic (l1 l2 : List Nat) : Bool :=
  (List.range (l1.length + 1)).any (fun i => l2.reverse.rotateLeft i = l1)

/-- Modelled from the spec: the recoverable diagnostics one contribution
produces (missing source: c-mesh): a degenerate face, or an orientation
inconsistency of an interior manifold pair. -/
def faceDiagnostics (contribs : List FaceContribution) (c : FaceContribution) :
    List Diagnostic :=
  if c.nodes.Nodup then
    match (contribs.filter (fun c2 => decide (c2.key = c.key))).filter
        (fun c2 => decide ((c2.elem, c2.face) ≠ (c.elem, c.face))) with
    | [c2] =>
      if isReverseCyclic c.nodes c2.nodes then []
      else [.InconsistentOrientation c.elem c.face c2.elem c2.face]
    | _ => []
  else [.DegenerateFace c.elem c.face]

/-- Modelled from the spec: the accumulated diagnostics list (missing source:
c-mesh). -/
def diagnostics (elems : List (Nat × Element)) : List Diagnostic :=
  (contributions elems).flatMap (faceDiagnostics (contributions elems))

/-- Modelled from the spec: the connectivity result object handed to
consumers (missing source: c-mesh). -/
structure ConnResult where
  nodeMap : List (List (Nat × Nat))
  adjacencyRecords : List (List FaceRecord)
deriving DecidableEq, Repr

/-- Modelled from the spec: the whole connectivity computation (missing
source: c-mesh): resolve blocks through the catalog (fatal on an unknown
tag), then build the Node-to-Element Map, Adjacency Records and diagnostics
list. -/
def computeConnectivity (cat : Catalog) (m : Mesh) :
    Except ConnectError (ConnResult × List Diagnostic) :=
  match resolveBlocks cat m with
  | .error e => .error e
  | .ok elems =>
      .ok (⟨nodeToElem m.numNodes elems.enum, adjacency elems.enum⟩,
           diagnostics elems.enum)

/-- Modelled from the spec: the consumer query "the Adjacency Record of
element `e` across local face `f`" (missing source: c-mesh); `none` when the
indices are out of range. -/
def record (elems : List Element) (e f : Nat) : Option FaceRecord :=
  match elems.get? e with
  | none => none
  | some el =>
    if f < el.topo.faces.length then
      some (classify (contributions elems.enum) (contribOf el e f))
    else none

/-- Modelled from the spec: split a list into successive chunks of the given
sizes (missing source: c-mesh). -/
def splitChunks {α : Type} : List Nat → List α → List (List α)
  | [], _ => []
  | s :: ss, l => l.take s :: splitChunks ss (l.drop s)

/-- Modelled from the spec: the chunk size of a static contiguous split of
`n` elements over `t` worker threads (missing source: c-mesh). -/
def chunkSize (t n : Nat) : Nat := n / t + 1

/-- Modelled from the spec: one chunk size per worker thread (missing source:
c-mesh). -/
def chunkSizes (t n : Nat) : List Nat := List.replicate t (chunkSize t n)

/-- Modelled from the spec: the Parallel Coordinator's static contiguous
partition of the global element index space into one chunk per worker thread
(missing source: c-mesh). -/
def chunksOf {α : Type} (t : Nat) (l : List α) : List (List α) :=
  splitChunks (chunkSizes t l.length) l

/-- Modelled from the spec: the per-chunk results delivered by the worker
threads in completion order (missing source: c-mesh): each chunk index paired
with that chunk's computed segment. -/
def deliveredSegments {α : Type} (schedule : List Nat) (segs : Nat → List α) :
    List (Nat × List α) :=
  schedule.map (fun i => (i, segs i))

/-- Modelled from the spec: the barrier merge writing each delivered segment
into its precomputed disjoint offset range of the shared output: position is
determined by chunk index alone, never by completion order (missing source:
c-mesh). -/
def assemble {α : Type} (numChunks : Nat) (delivered : List (Nat × List α)) : List α :=
  (List.range numChunks).flatMap (fun i => (delivered.lookup i).getD [])

/-- Modelled from the spec: chunked, schedule-dependent face-key generation
(missing source: c-mesh). -/
def contributionsPar (elems : List (Nat × Element)) (t : Nat) (schedule : List Nat) :
    List FaceContribution :=
  assemble (chunksOf t elems).length
    (deliveredSegments schedule (fun i => contributions ((chunksOf t elems).getD i [])))

/-- Modelled from the spec: chunked Node-to-Element Map fill with disjoint
precomputed offset ranges per thread (missing source: c-mesh). -/
def nodeToElemPar (numNodes : Nat) (elems : List (Nat × Element)) (t : Nat)
    (schedule : List Nat) : List (List (Nat × Nat)) :=
  (List.range numNodes).map (fun n =>
    assemble (chunksOf t elems).length
      (deliveredSegments schedule (fun i => nodeBucket ((chunksOf t elems).getD i []) n)))

/-- Modelled from the spec: Adjacency Records resolved single-threaded after
the barrier, over the parallel face-key table (missing source: c-mesh). -/
def adjacencyPar (elems : List (Nat × Element)) (t : Nat) (schedule : List Nat) :
    List (List FaceRecord) :=
  elems.map (fun p => elementRecords (contributionsPar elems t schedule) p.1 p.2)

/-- Modelled from the spec: diagnostics accumulated from the parallel face
table (missing source: c-mesh). -/
def diagnosticsPar (elems : List (Nat × Element)) (t : Nat) (schedule : List Nat) :
    List Diagnostic :=
  (contributionsPar elems t schedule).flatMap
    (faceDiagnostics (contributionsPar elems t schedule))

/-- Modelled from the spec: the whole connectivity computation run on `t`
worker threads whose chunk tasks complete in the order `schedule` (missing
source: c-mesh). -/
def computeConnectivityPar (cat : Catalog) (m : Mesh) (t : Nat) (schedule : List Nat) :
    Except ConnectError (ConnResult × List Diagnostic) :=
  match resolveBlocks cat m with
  | .error e => .error e
  | .ok elems =>
      .ok (⟨nodeToElemPar m.numNodes elems.enum t schedule,
            adjacencyPar elems.enum t schedule⟩,
           diagnosticsPar elems.enum t schedule)

/-- A concrete triangle topology, its catalog, and a two-triangle mesh
sharing one edge, used for concrete evaluation. -/
def triDescriptor : TopoDescriptor := ⟨3, [[0, 1], [1, 2], [2, 0]]⟩

def triCatalog : Catalog := [("tri3", triDescriptor)]

def triMesh : Mesh := ⟨4, [⟨"tri3", [[0, 1, 2], [1, 3, 2]]⟩]⟩

end Connect

namespace Setup

lemma applyCalls_append (l1 l2 : List CompileCall) (fs : String → Option (String × String)) :
    applyCalls (l1 ++ l2) fs = applyCalls l2 (applyCalls l1 fs) := by
  simp [applyCalls, List.foldl_append]

lemma applyCalls_callsFor (build : List (String × BuildEntry)) (x : String)
    (fs : String → Option (String × String)) (k : String) :
    applyCalls (callsFor build x) fs k =
      if k = x then
        (match build.lookup x with
         | some e => some (e.src, e.ext)
         | none => fs k)
      else fs k := by
  cases hb : build.lookup x with
  | none => simp [callsFor, hb, applyCalls]
  | some e =>
    simp only [callsFor, hb, applyCalls, List.foldl_cons, List.foldl_nil, applyCall]

/-- The filesystem after compiling a list of objects is characterized
pointwise: an object file present in `objects` with a `build` entry holds its
compiled source; every other file is untouched. -/
lemma applyCalls_char (build : List (String × BuildEntry)) (objects : List String)
    (fs : String → Option (String × String)) (k : String) :
    applyCalls (objects.flatMap (callsFor build)) fs k =
      if k ∈ objects then
        (match build.lookup k with
         | some e => some (e.src, e.ext)
         | none => fs k)
      else fs k := by
  induction objects generalizing fs with
  | nil => simp [applyCalls]
  | cons x xs ih =>
    rw [List.flatMap_cons, applyCalls_append, ih]
    rw [applyCalls_callsFor]
    by_cases hkx : k = x
    · subst hkx
      simp only [if_pos rfl, List.mem_cons, true_or, if_true]
      by_cases hk : k ∈ xs
      · simp only [hk, if_true]
        cases hb : build.lookup k <;> simp [hb]
      · simp only [hk, if_false]
    · simp only [hkx, if_false, List.mem_cons, false_or]

/-- Compiling the same objects in a permuted order produces the same final
filesystem. -/
lemma applyCalls_perm (build : List (String × BuildEntry)) {objects schedule : List String}
    (h : schedule.Perm objects) (fs : String → Option (String × String)) :
    applyCalls (schedule.flatMap (callsFor build)) fs =
      applyCalls (objects.flatMap (callsFor build)) fs := by
  funext k
  rw [applyCalls_char, applyCalls_char]
  simp only [h.mem_iff]

/-- C4: `parallel_c_compile` is a fan-out/fan-in over the thread pool that is
observationally equivalent to the sequential compile loop it replaces: for
every build mapping and objects list from `_setup_compile`, and every order
`schedule` in which the forced `imap` runs the per-object tasks, every
object's `_single_compile` work is performed before returning, the returned
value is exactly the `objects` list, and the resulting filesystem equals the
sequential one. -/
theorem parallel_c_compile_equiv_sequential
    (build : List (String × BuildEntry)) (objects schedule : List String)
    (fs : String → Option (String × String))
    (h : schedule.Perm objects) :
    (parallel_c_compile build objects schedule).1 = objects ∧
    (∀ obj ∈ objects, ∀ c ∈ callsFor build obj,
        c ∈ (parallel_c_compile build objects schedule).2) ∧
    applyCalls (parallel_c_compile build objects schedule).2 fs =
      applyCalls (sequential_compile build objects).2 fs := by
  refine ⟨rfl, ?_, ?_⟩
  · intro obj hobj c hc
    exact List.mem_flatMap.mpr ⟨obj, h.mem_iff.mpr hobj, hc⟩
  · exact applyCalls_perm build h fs

/-- Witness for C4 at a concrete two-object compile with a reversed schedule. -/
theorem parallel_c_compile_equiv_sequential_witness :
    (["b.o", "a.o"] : List String).Perm ["a.o", "b.o"] ∧
    ((parallel_c_compile [("a.o", ⟨"a.c", ".c"⟩), ("b.o", ⟨"b.c", ".c"⟩)]
        ["a.o", "b.o"] ["b.o", "a.o"]).1 = ["a.o", "b.o"] ∧
     (∀ obj ∈ ["a.o", "b.o"],
        ∀ c ∈ callsFor [("a.o", ⟨"a.c", ".c"⟩), ("b.o", ⟨"b.c", ".c"⟩)] obj,
          c ∈ (parallel_c_compile [("a.o", ⟨"a.c", ".c"⟩), ("b.o", ⟨"b.c", ".c"⟩)]
              ["a.o", "b.o"] ["b.o", "a.o"]).2) ∧
     applyCalls (parallel_c_compile [("a.o", ⟨"a.c", ".c"⟩), ("b.o", ⟨"b.c", ".c"⟩)]
        ["a.o", "b.o"] ["b.o", "a.o"]).2 (fun _ => none) =
       applyCalls (sequential_compile [("a.o", ⟨"a.c", ".c"⟩), ("b.o", ⟨"b.c", ".c"⟩)]
          ["a.o", "b.o"]).2 (fun _ => none)) :=
  ⟨by decide,
   parallel_c_compile_equiv_sequential _ _ _ _ (by decide)⟩

/-- C7: a missing `build` entry makes `_single_compile` return `None` with no
compiler invocation and no escaping exception: the `KeyError` is caught and
the object is silently skipped. -/
theorem single_compile_missing_key (build : List (String × BuildEntry)) (obj : String)
    (h : build.lookup obj = none) :
    single_compile build obj = .ok ((), []) := by
  simp [single_compile, h]

/-- Witness for C7: an object name absent from a concrete build mapping. -/
theorem single_compile_missing_key_witness :
    ([(("a.o" : String), BuildEntry.mk "a.c" ".c")].lookup "b.o" = none) ∧
    single_compile [("a.o", BuildEntry.mk "a.c" ".c")] "b.o" = .ok ((), []) :=
  ⟨by decide, single_compile_missing_key _ _ (by decide)⟩

/-- C5: both declared extensions (`affect.exodus` and `affect.connect`) list
`iomp5` among their link libraries and pass `-fopenmp` in their compile
arguments, and the installed parallel compile step uses a thread pool of
`NUMBER_PARALLEL_COMPILES = 4` threads. -/
theorem build_configures_openmp_and_parallel_compile
    (oi ol : String) (cms : List String) :
    extensions oi ol cms = [exodusExtension oi ol, connectExtension oi ol cms] ∧
    "iomp5" ∈ (exodusExtension oi ol).libraries ∧
    "iomp5" ∈ (connectExtension oi ol cms).libraries ∧
    "-fopenmp" ∈ (exodusExtension oi ol).extra_compile_args ∧
    "-fopenmp" ∈ (connectExtension oi ol cms).extra_compile_args ∧
    NUMBER_PARALLEL_COMPILES = 4 ∧
    threadPoolSize = NUMBER_PARALLEL_COMPILES ∧
    (∀ p t, (loadModule p t).ccompilerCompile = CompileImpl.parallelCCompile) := by
  refine ⟨rfl, ?_, ?_, ?_, ?_, rfl, rfl, fun p t => rfl⟩ <;>
    simp [exodusExtension, connectExtension]

/-- C6: importing setup.py mutates process-wide state: on every recognized
platform it overwrites `os.environ['CC']` and `os.environ['CXX']` (and touches
no other environment entry), and unconditionally it replaces
`distutils.ccompiler.CCompiler.compile` with `parallel_c_compile`. -/
theorem loadModule_mutates_global_state (p : String) (s : ProcessState)
    (hp : p ∈ recognizedPlatforms) :
    (loadModule p s).env "CC" = some (compilerFor p) ∧
    (loadModule p s).env "CXX" = some (compilerFor p) ∧
    (∀ k, k ≠ "CC" → k ≠ "CXX" → (loadModule p s).env k = s.env k) ∧
    (∀ q t, (loadModule q t).ccompilerCompile = CompileImpl.parallelCCompile) := by
  have hcases : p = "linux" ∨ p = "linux2" ∨ p = "darwin" ∨ p = "win32" := by
    simpa [recognizedPlatforms] using hp
  refine ⟨?_, ?_, ?_, fun q t => rfl⟩
  · rcases hcases with rfl | rfl | rfl | rfl <;> simp [loadModule, setEnv, compilerFor]
  · rcases hcases with rfl | rfl | rfl | rfl <;> simp [loadModule, setEnv, compilerFor]
  · intro k h1 h2
    rcases hcases with rfl | rfl | rfl | rfl <;> simp [loadModule, setEnv, h1, h2]

/-- Witness for C6 on the linux platform and an initially empty environment. -/
theorem loadModule_mutates_global_state_witness :
    ("linux" ∈ recognizedPlatforms) ∧
    ((loadModule "linux" emptyState).env "CC" = some (compilerFor "linux") ∧
     (loadModule "linux" emptyState).env "CXX" = some (compilerFor "linux") ∧
     (∀ k, k ≠ "CC" → k ≠ "CXX" →
        (loadModule "linux" emptyState).env k = emptyState.env k) ∧
     (∀ q t, (loadModule q t).ccompilerCompile = CompileImpl.parallelCCompile)) :=
  ⟨by simp [recognizedPlatforms],
   loadModule_mutates_global_state "linux" emptyState (by simp [recognizedPlatforms])⟩

/-- C8: the numpy include-directory injection is idempotent and
order-preserving: after it, `include_dirs` contains the numpy path,
pre-existing entries keep their order (the old list is a prefix of the new),
and running the injection a second time changes nothing, for every extension
list. -/
theorem injectNumpyInclude_idempotent_order_preserving
    (np : String) (dirs : List String) (exts : List (Option (List String))) :
    np ∈ injectNumpyInclude np dirs ∧
    (∃ t, injectNumpyInclude np dirs = dirs ++ t) ∧
    injectNumpyInclude np (injectNumpyInclude np dirs) = injectNumpyInclude np dirs ∧
    runInjection np (runInjection np exts) = runInjection np exts := by
  have hmem : ∀ l : List String, np ∈ injectNumpyInclude np l := by
    intro l
    by_cases h : np ∈ l <;> simp [injectNumpyInclude, h]
  have hidem : ∀ l : List String,
      injectNumpyInclude np (injectNumpyInclude np l) = injectNumpyInclude np l := by
    intro l
    by_cases h : np ∈ l <;> simp [injectNumpyInclude, h]
  refine ⟨hmem dirs, ?_, hidem dirs, ?_⟩
  · by_cases h : np ∈ dirs
    · exact ⟨[], by simp [injectNumpyInclude, h]⟩
    · exact ⟨[np], by simp [injectNumpyInclude, h]⟩
  · simp only [runInjection, List.map_map]
    refine List.map_congr_left ?_
    intro d _
    cases d with
    | none => rfl
    | some dirs2 => simp [hidem dirs2]

/-- C9: when Cython.Build is not importable at module load, loading still
succeeds (the ImportError is caught and a fallback is bound), and once Cython
is importable at call time the fallback returns the real `cythonize` result on
the same arguments, so `setup`'s `ext_modules` receives the same value as when
Cython was importable from the start. -/
theorem cythonize_fallback_preserves_ext_modules
    {α β : Type} (real : α → β) (availableAtLoad : Bool) (a : α) :
    (∃ b, bindCythonize availableAtLoad = .ok b) ∧
    (bindCythonize false = .ok .fallback) ∧
    (callCythonize real .fallback true a = .ok (real a)) ∧
    (∀ b, bindCythonize availableAtLoad = .ok b →
        callCythonize real b true a = callCythonize real .direct true a) := by
  refine ⟨?_, rfl, rfl, ?_⟩
  · cases availableAtLoad <;> exact ⟨_, rfl⟩
  · intro b hb
    cases availableAtLoad <;>
      (simp only [bindCythonize] at hb) <;>
      simp only [Bool.false_eq_true, if_false, if_true, Except.ok.injEq] at hb <;>
      subst hb <;> rfl

end Setup

namespace Connect

lemma resolveBlocksFrom_error_shape (cat : Catalog) (bs : List ElementBlock) :
    ∀ (i0 : Nat) (e : ConnectError), resolveBlocksFrom cat i0 bs = .error e →
      ∃ j b, bs.get? j = some b ∧ cat.lookup b.topology = none ∧
        e = .UnsupportedTopology (i0 + j) b.topology := by
  induction bs with
  | nil => intro i0 e h; simp [resolveBlocksFrom] at h
  | cons b bs ih =>
    intro i0 e h
    cases hb : cat.lookup b.topology with
    | none =>
      simp only [resolveBlocksFrom, hb, Except.error.injEq] at h
      exact ⟨0, b, rfl, hb, by rw [← h, Nat.add_zero]⟩
    | some d =>
      cases hr : resolveBlocksFrom cat (i0 + 1) bs with
      | error e2 =>
        simp only [resolveBlocksFrom, hb, hr, Except.error.injEq] at h
        subst h
        obtain ⟨j, b2, hj, hl, he⟩ := ih (i0 + 1) e2 hr
        refine ⟨j + 1, b2, by simpa using hj, hl, ?_⟩
        rw [he]
        congr 1
        omega
      | ok rest =>
        simp only [resolveBlocksFrom, hb, hr] at h
        exact Except.noConfusion h

lemma resolveBlocksFrom_error_of_missing (cat : Catalog) (bs : List ElementBlock) :
    ∀ i0 : Nat, (∃ b ∈ bs, cat.lookup b.topology = none) →
      ∃ e, resolveBlocksFrom cat i0 bs = .error e := by
  induction bs with
  | nil => intro i0 h; simp at h
  | cons b bs ih =>
    intro i0 h
    cases hb : cat.lookup b.topology with
    | none =>
      exact ⟨.UnsupportedTopology i0 b.topology, by simp [resolveBlocksFrom, hb]⟩
    | some d =>
      obtain ⟨b2, hb2, hl⟩ := h
      rcases List.mem_cons.mp hb2 with rfl | hmem
      · rw [hb] at hl; cases hl
      · obtain ⟨e, he⟩ := ih (i0 + 1) ⟨b2, hmem, hl⟩
        exact ⟨e, by simp [resolveBlocksFrom, hb, he]⟩

/-- C2: the connectivity computation returns either a complete connectivity
result (a node bucket for every node, an Adjacency Record list for every
element with one record per local face) together with a possibly empty
diagnostics list, or a fatal `UnsupportedTopology` error identifying the
offending block, with no connectivity structures returned; and any block with
an unregistered topology tag forces the fatal outcome. -/
theorem computeConnectivity_complete_or_fatal (cat : Catalog) (m : Mesh) :
    ((∃ r d elems, computeConnectivity cat m = .ok (r, d) ∧
        resolveBlocks cat m = .ok elems ∧
        r.nodeMap.length = m.numNodes ∧
        r.adjacencyRecords.length = elems.length ∧
        (∀ i el, elems.get? i = some el →
          ∃ recs, r.adjacencyRecords.get? i = some recs ∧
            recs.length = el.topo.faces.length)) ∨
     (∃ i b, m.blocks.get? i = some b ∧ cat.lookup b.topology = none ∧
        computeConnectivity cat m = .error (.UnsupportedTopology i b.topology))) ∧
    ((∃ b ∈ m.blocks, cat.lookup b.topology = none) →
      ∃ i b, m.blocks.get? i = some b ∧ cat.lookup b.topology = none ∧
        computeConnectivity cat m = .error (.UnsupportedTopology i b.topology)) := by
  constructor
  · cases hres : resolveBlocks cat m with
    | ok elems =>
      left
      refine ⟨⟨nodeToElem m.numNodes elems.enum, adjacency elems.enum⟩,
        diagnostics elems.enum, elems, ?_, rfl, ?_, ?_, ?_⟩
      · simp [computeConnectivity, hres]
      · simp [nodeToElem]
      · simp [adjacency, List.enum_length]
      · intro i el hi
        refine ⟨elementRecords (contributions elems.enum) i el, ?_, ?_⟩
        · show (adjacency elems.enum).get? i = _
          rw [adjacency, List.get?_eq_getElem?, List.getElem?_map, List.getElem?_enum,
            ← List.get?_eq_getElem?, hi]
          rfl
        · simp [elementRecords]
    | error e =>
      right
      obtain ⟨j, b, hj, hl, he⟩ := resolveBlocksFrom_error_shape cat m.blocks 0 e hres
      refine ⟨j, b, hj, hl, ?_⟩
      have : e = ConnectError.UnsupportedTopology j b.topology := by
        rw [he]; congr 1; omega
      rw [← this]
      simp [computeConnectivity, hres]
  · intro hmiss
    obtain ⟨e, he⟩ := resolveBlocksFrom_error_of_missing cat m.blocks 0 hmiss
    obtain ⟨j, b, hj, hl, hshape⟩ := resolveBlocksFrom_error_shape cat m.blocks 0 e he
    refine ⟨j, b, hj, hl, ?_⟩
    have : e = ConnectError.UnsupportedTopology j b.topology := by
      rw [hshape]; congr 1; omega
    rw [← this]
    simp [computeConnectivity, resolveBlocks, he]

/-- Witness for C2 at a concrete mesh whose single block carries an
unregistered topology tag, against an empty catalog. -/
theorem computeConnectivity_complete_or_fatal_witness :
    ((∃ r d elems,
        computeConnectivity [] ⟨4, [⟨"mystery", [[0, 1, 2]]⟩]⟩ = .ok (r, d) ∧
        resolveBlocks [] ⟨4, [⟨"mystery", [[0, 1, 2]]⟩]⟩ = .ok elems ∧
        r.nodeMap.length = (4 : Nat) ∧
        r.adjacencyRecords.length = elems.length ∧
        (∀ i el, elems.get? i = some el →
          ∃ recs, r.adjacencyRecords.get? i = some recs ∧
            recs.length = el.topo.faces.length)) ∨
     (∃ i b, ([⟨"mystery", [[0, 1, 2]]⟩] : List ElementBlock).get? i = some b ∧
        ([] : Catalog).lookup b.topology = none ∧
        computeConnectivity [] ⟨4, [⟨"mystery", [[0, 1, 2]]⟩]⟩ =
          .error (.UnsupportedTopology i b.topology))) ∧
    ((∃ b ∈ ([⟨"mystery", [[0, 1, 2]]⟩] : List ElementBlock),
        ([] : Catalog).lookup b.topology = none) →
      ∃ i b, ([⟨"mystery", [[0, 1, 2]]⟩] : List ElementBlock).get? i = some b ∧
        ([] : Catalog).lookup b.topology = none ∧
        computeConnectivity [] ⟨4, [⟨"mystery", [[0, 1, 2]]⟩]⟩ =
          .error (.UnsupportedTopology i b.topology)) :=
  computeConnectivity_complete_or_fatal [] ⟨4, [⟨"mystery", [[0, 1, 2]]⟩]⟩

lemma flatMap_congr_mem {α β : Type} (l : List α) (f g : α → List β)
    (h : ∀ x ∈ l, f x = g x) : l.flatMap f = l.flatMap g := by
  induction l with
  | nil => rfl
  | cons x xs ih =>
    rw [List.flatMap_cons, List.flatMap_cons, h x (List.mem_cons_self x xs),
      ih (fun y hy => h y (List.mem_cons_of_mem x hy))]

lemma mem_contributions_shape (elems : List Element) (c : FaceContribution)
    (h : c ∈ contributions elems.enum) :
    ∃ el, elems.get? c.elem = some el ∧ c.face < el.topo.faces.length ∧
      c = contribOf el c.elem c.face := by
  rw [contributions, List.mem_flatMap] at h
  obtain ⟨p, hp, hc⟩ := h
  rw [List.mem_map] at hc
  obtain ⟨f, hf, rfl⟩ := hc
  rw [List.mem_range] at hf
  have hpe : elems.get? p.1 = some p.2 := List.mem_enum_iff_get?.mp hp
  exact ⟨p.2, hpe, hf, rfl⟩

lemma contribOf_mem_contributions (elems : List Element) (e f : Nat) (el : Element)
    (he : elems.get? e = some el) (hf : f < el.topo.faces.length) :
    contribOf el e f ∈ contributions elems.enum := by
  rw [contributions, List.mem_flatMap]
  refine ⟨(e, el), List.mem_enum_iff_get?.mpr he, ?_⟩
  exact List.mem_map.mpr ⟨f, List.mem_range.mpr hf, rfl⟩

/-- Each (element, local face) pair occurs at most once in the contribution
multiset. -/
lemma contributions_ids_nodup (elems : List Element) :
    ((contributions elems.enum).map (fun c => (c.elem, c.face))).Nodup := by
  rw [contributions, List.map_flatMap]
  have hrw : ∀ p : Nat × Element,
      ((List.range p.2.topo.faces.length).map (fun f => contribOf p.2 p.1 f)).map
          (fun c => (c.elem, c.face)) =
        (List.range p.2.topo.faces.length).map (fun f => (p.1, f)) := by
    intro p
    rw [List.map_map]
    rfl
  rw [flatMap_congr_mem _ _ _ (fun p _ => hrw p)]
  rw [List.nodup_flatMap]
  constructor
  · intro p _
    exact List.Nodup.map (fun a b hab => (Prod.ext_iff.mp hab).2) (List.nodup_range _)
  · have h2 : (List.map Prod.fst elems.enum).Nodup := by
      rw [List.enum_map_fst]; exact List.nodup_range _
    have h1 : List.Pairwise (fun p q : Nat × Element => p.1 ≠ q.1) elems.enum :=
      List.pairwise_map.mp h2
    refine h1.imp ?_
    intro p q hpq x hx hy
    rw [List.mem_map] at hx hy
    obtain ⟨f1, _, rfl⟩ := hx
    obtain ⟨f2, _, h3⟩ := hy
    exact hpq ((Prod.ext_iff.mp h3).1.symm)

lemma eq_singleton_of_nodup_map {α β : Type} (idf : α → β) (l : List α) (a : α)
    (hn : (l.map idf).Nodup) (hall : ∀ x ∈ l, x = a) (hmem : a ∈ l) : l = [a] := by
  cases l with
  | nil => cases hmem
  | cons x xs =>
    have hx : x = a := hall x (List.mem_cons_self x xs)
    subst hx
    cases xs with
    | nil => rfl
    | cons y ys =>
      have hy : y = x := hall y (List.mem_cons_of_mem x (List.mem_cons_self y ys))
      subst hy
      simp at hn

/-- The heart of the symmetry argument: if the resolver matched `cA` to the
single other contribution `cB` of its Face Key group, then resolving `cB`
against the same contribution multiset names `cA` back. -/
lemma classify_interior_symm (contribs : List FaceContribution) (cA cB : FaceContribution)
    (hids : (contribs.map (fun c => (c.elem, c.face))).Nodup)
    (hmemA : cA ∈ contribs)
    (hpermA : cA.key.Perm cA.nodes) (hpermB : cB.key.Perm cB.nodes)
    (hB : (contribs.filter (fun x => decide (x.key = cA.key))).filter
        (fun x => decide ((x.elem, x.face) ≠ (cA.elem, cA.face))) = [cB])
    (hndA : cA.nodes.Nodup) :
    classify contribs cB = FaceRecord.interior cA.elem cA.face := by
  have hmemBfull : cB ∈ (contribs.filter (fun x => decide (x.key = cA.key))).filter
      (fun x => decide ((x.elem, x.face) ≠ (cA.elem, cA.face))) := by
    rw [hB]; exact List.mem_cons_self _ _
  have hmemBgrp : cB ∈ contribs.filter (fun x => decide (x.key = cA.key)) :=
    (List.mem_filter.mp hmemBfull).1
  have hkeyB : cB.key = cA.key :=
    of_decide_eq_true (List.mem_filter.mp hmemBgrp).2
  have hidB : (cB.elem, cB.face) ≠ (cA.elem, cA.face) :=
    of_decide_eq_true (List.mem_filter.mp hmemBfull).2
  have hndB : cB.nodes.Nodup := by
    have h1 : cB.key.Nodup := by
      rw [hkeyB]; exact hpermA.nodup_iff.mpr hndA
    exact hpermB.nodup_iff.mp h1
  have hgrpids : ((contribs.filter (fun x => decide (x.key = cA.key))).map
      (fun c => (c.elem, c.face))).Nodup :=
    List.Nodup.sublist (List.Sublist.map _ (List.filter_sublist _)) hids
  have hmemAgrp : cA ∈ contribs.filter (fun x => decide (x.key = cA.key)) :=
    List.mem_filter.mpr ⟨hmemA, by simp⟩
  have hfiltereq : contribs.filter (fun x => decide (x.key = cB.key)) =
      contribs.filter (fun x => decide (x.key = cA.key)) :=
    List.filter_congr (fun x _ => by rw [hkeyB])
  have hsingleton : (contribs.filter (fun x => decide (x.key = cA.key))).filter
      (fun x => decide ((x.elem, x.face) ≠ (cB.elem, cB.face))) = [cA] := by
    refine eq_singleton_of_nodup_map (fun c => (c.elem, c.face)) _ cA
      (List.Nodup.sublist (List.Sublist.map _ (List.filter_sublist _)) hgrpids) ?_ ?_
    · intro x hx
      have hxgrp : x ∈ contribs.filter (fun y => decide (y.key = cA.key)) :=
        (List.mem_filter.mp hx).1
      have hxid : (x.elem, x.face) ≠ (cB.elem, cB.face) :=
        of_decide_eq_true (List.mem_filter.mp hx).2
      by_cases hxa : (x.elem, x.face) = (cA.elem, cA.face)
      · exact List.inj_on_of_nodup_map hgrpids hxgrp hmemAgrp hxa
      · exfalso
        have hxb : x ∈ (contribs.filter (fun y => decide (y.key = cA.key))).filter
            (fun y => decide ((y.elem, y.face) ≠ (cA.elem, cA.face))) :=
          List.mem_filter.mpr ⟨hxgrp, decide_eq_true hxa⟩
        rw [hB] at hxb
        rcases List.mem_singleton.mp hxb with rfl
        exact hxid rfl
    · refine List.mem_filter.mpr ⟨hmemAgrp, decide_eq_true ?_⟩
      intro hcon
      exact hidB (hcon.symm)
  unfold classify
  rw [if_pos hndB, hfiltereq, hsingleton]

/-- C3: adjacency is symmetric in every computed connectivity result: whenever
the Adjacency Record of element `A` across face `f` names `(B, g)` as its
interior manifold neighbor, the record of element `B` across face `g` names
exactly `(A, f)`. -/
theorem adjacency_symmetric (cat : Catalog) (m : Mesh) (elems : List Element)
    (hres : resolveBlocks cat m = .ok elems) (A f B g : Nat)
    (h : record elems A f = some (FaceRecord.interior B g)) :
    record elems B g = some (FaceRecord.interior A f) := by
  clear hres
  cases hA : elems.get? A with
  | none =>
    simp only [record, hA] at h
    exact Option.noConfusion h
  | some elA =>
    simp only [record, hA] at h
    by_cases hfA : f < elA.topo.faces.length
    · rw [if_pos hfA] at h
      have hcl := Option.some.inj h
      rw [classify] at hcl
      by_cases hnd : (contribOf elA A f).nodes.Nodup
      · rw [if_pos hnd] at hcl
        cases ho : ((contributions elems.enum).filter
              (fun x => decide (x.key = (contribOf elA A f).key))).filter
            (fun x => decide ((x.elem, x.face) ≠
              ((contribOf elA A f).elem, (contribOf elA A f).face))) with
        | nil =>
          rw [ho] at hcl
          exact FaceRecord.noConfusion hcl
        | cons c2 rest =>
          cases rest with
          | cons c3 rest2 =>
            rw [ho] at hcl
            exact FaceRecord.noConfusion hcl
          | nil =>
            rw [ho] at hcl
            obtain ⟨hc2e, hc2f⟩ := FaceRecord.interior.inj hcl
            have hc2contribs : c2 ∈ contributions elems.enum := by
              have h1 : c2 ∈ ((contributions elems.enum).filter
                    (fun x => decide (x.key = (contribOf elA A f).key))).filter
                  (fun x => decide ((x.elem, x.face) ≠
                    ((contribOf elA A f).elem, (contribOf elA A f).face))) := by
                rw [ho]; exact List.mem_cons_self _ _
              exact (List.mem_filter.mp (List.mem_filter.mp h1).1).1
            obtain ⟨elB2, hBget, hgB2, hc2eq⟩ :=
              mem_contributions_shape elems c2 hc2contribs
            rw [hc2e] at hBget
            rw [hc2f] at hgB2
            rw [hc2e, hc2f] at hc2eq
            have hsym := classify_interior_symm (contributions elems.enum)
              (contribOf elA A f) c2
              (contributions_ids_nodup elems)
              (contribOf_mem_contributions elems A f elA hA hfA)
              (List.perm_insertionSort _ _)
              (by rw [hc2eq]; exact List.perm_insertionSort _ _)
              ho hnd
            simp only [record, hBget]
            rw [if_pos hgB2, ← hc2eq]
            exact congrArg some hsym
      · rw [if_neg hnd] at hcl
        exact FaceRecord.noConfusion hcl
    · rw [if_neg hfA] at h
      exact Option.noConfusion h

/-- Witness for C3 on a two-triangle mesh sharing the edge between nodes 1
and 2: element 0's face 1 names (1, 2), and element 1's face 2 names (0, 1)
back. -/
theorem adjacency_symmetric_witness :
    resolveBlocks [("tri3", ⟨3, [[0, 1], [1, 2], [2, 0]]⟩)]
        ⟨4, [⟨"tri3", [[0, 1, 2], [1, 3, 2]]⟩]⟩ =
      .ok [⟨⟨3, [[0, 1], [1, 2], [2, 0]]⟩, [0, 1, 2]⟩,
           ⟨⟨3, [[0, 1], [1, 2], [2, 0]]⟩, [1, 3, 2]⟩] ∧
    record [⟨⟨3, [[0, 1], [1, 2], [2, 0]]⟩, [0, 1, 2]⟩,
            ⟨⟨3, [[0, 1], [1, 2], [2, 0]]⟩, [1, 3, 2]⟩] 0 1 =
      some (FaceRecord.interior 1 2) ∧
    record [⟨⟨3, [[0, 1], [1, 2], [2, 0]]⟩, [0, 1, 2]⟩,
            ⟨⟨3, [[0, 1], [1, 2], [2, 0]]⟩, [1, 3, 2]⟩] 1 2 =
      some (FaceRecord.interior 0 1) :=
  ⟨by decide, by decide,
   adjacency_symmetric [("tri3", ⟨3, [[0, 1], [1, 2], [2, 0]]⟩)]
     ⟨4, [⟨"tri3", [[0, 1, 2], [1, 3, 2]]⟩]⟩ _ (by decide) 0 1 1 2 (by decide)⟩

lemma splitChunks_length {α : Type} (ss : List Nat) (l : List α) :
    (splitChunks ss l).length = ss.length := by
  induction ss generalizing l with
  | nil => rfl
  | cons s ss ih => simp only [splitChunks, List.length_cons, ih]

lemma splitChunks_flatten {α : Type} (ss : List Nat) (l : List α)
    (h : l.length ≤ ss.sum) : (splitChunks ss l).flatten = l := by
  induction ss generalizing l with
  | nil =>
    rw [List.sum_nil] at h
    rw [List.length_eq_zero.mp (Nat.le_zero.mp h)]
    rfl
  | cons s ss ih =>
    simp only [splitChunks, List.flatten_cons]
    rw [ih (l.drop s) (by rw [List.length_drop]; rw [List.sum_cons] at h; omega)]
    exact List.take_append_drop s l

lemma le_sum_chunkSizes (t n : Nat) (ht : 0 < t) : n ≤ (chunkSizes t n).sum := by
  rw [chunkSizes, List.sum_replicate, smul_eq_mul, chunkSize]
  have h1 := Nat.div_add_mod n t
  have h2 : n % t < t := Nat.mod_lt _ ht
  have h3 : t * (n / t + 1) = t * (n / t) + t := by ring
  omega

lemma chunksOf_length {α : Type} (t : Nat) (l : List α) : (chunksOf t l).length = t := by
  rw [chunksOf, splitChunks_length, chunkSizes, List.length_replicate]

lemma chunksOf_flatten {α : Type} (t : Nat) (l : List α) (ht : 0 < t) :
    (chunksOf t l).flatten = l :=
  splitChunks_flatten _ _ (le_sum_chunkSizes t l.length ht)

lemma flatten_flatMap {α β : Type} (L : List (List α)) (f : α → List β) :
    L.flatten.flatMap f = L.flatMap (fun l => l.flatMap f) := by
  induction L with
  | nil => rfl
  | cons x xs ih => rw [List.flatten_cons, List.flatMap_append, ih, List.flatMap_cons]

lemma range_flatMap_getD {α β : Type} (L : List α) (d : α) (f : α → List β) :
    (List.range L.length).flatMap (fun i => f (L.getD i d)) = L.flatMap f := by
  induction L with
  | nil => rfl
  | cons x xs ih =>
    rw [List.length_cons, List.range_succ_eq_map, List.flatMap_cons, List.flatMap_map,
      List.flatMap_cons]
    congr 1

lemma lookup_deliveredSegments {α : Type} (segs : Nat → List α) :
    ∀ (schedule : List Nat) (i : Nat), i ∈ schedule →
      (deliveredSegments schedule segs).lookup i = some (segs i) := by
  intro schedule
  induction schedule with
  | nil => intro i h; cases h
  | cons j js ih =>
    intro i h
    rw [deliveredSegments, List.map_cons, List.lookup_cons]
    by_cases hij : i = j
    · subst hij
      simp
    · rw [beq_false_of_ne hij]
      exact ih i (by rcases List.mem_cons.mp h with rfl | hm; exact absurd rfl hij; exact hm)

lemma assemble_perm_range {α : Type} (k : Nat) (schedule : List Nat) (segs : Nat → List α)
    (h : schedule.Perm (List.range k)) :
    assemble k (deliveredSegments schedule segs) = (List.range k).flatMap segs := by
  rw [assemble]
  refine flatMap_congr_mem _ _ _ ?_
  intro i hi
  rw [lookup_deliveredSegments segs schedule i (h.mem_iff.mpr hi)]
  rfl

lemma contributionsPar_eq (elems : List (Nat × Element)) (t : Nat) (schedule : List Nat)
    (ht : 0 < t) (hs : schedule.Perm (List.range t)) :
    contributionsPar elems t schedule = contributions elems := by
  rw [contributionsPar]
  rw [assemble_perm_range _ _ _ (by rw [chunksOf_length]; exact hs)]
  rw [range_flatMap_getD (chunksOf t elems) [] contributions]
  rw [show (chunksOf t elems).flatMap contributions
      = (chunksOf t elems).flatMap (fun c => contributions c) from rfl]
  simp only [contributions]
  rw [← flatten_flatMap, chunksOf_flatten _ _ ht]

lemma nodeToElemPar_eq (numNodes : Nat) (elems : List (Nat × Element)) (t : Nat)
    (schedule : List Nat) (ht : 0 < t) (hs : schedule.Perm (List.range t)) :
    nodeToElemPar numNodes elems t schedule = nodeToElem numNodes elems := by
  rw [nodeToElemPar, nodeToElem]
  refine List.map_congr_left ?_
  intro n _
  rw [assemble_perm_range _ _ _ (by rw [chunksOf_length]; exact hs)]
  rw [range_flatMap_getD (chunksOf t elems) [] (fun c => nodeBucket c n)]
  simp only [nodeBucket]
  rw [← flatten_flatMap, chunksOf_flatten _ _ ht]

lemma computeConnectivityPar_eq (cat : Catalog) (m : Mesh) (t : Nat) (schedule : List Nat)
    (ht : 0 < t) (hs : schedule.Perm (List.range t)) :
    computeConnectivityPar cat m t schedule = computeConnectivity cat m := by
  rw [computeConnectivityPar, computeConnectivity]
  cases resolveBlocks cat m with
  | error e => rfl
  | ok elems =>
    simp only [adjacencyPar, diagnosticsPar,
      contributionsPar_eq elems.enum t schedule ht hs,
      nodeToElemPar_eq m.numNodes elems.enum t schedule ht hs]
    rfl

/-- C1: for every mesh and catalog, the connectivity computation produces
byte-identical Adjacency Records and Node-to-Element Map contents and
ordering regardless of the number of worker threads and of the order in which
the chunk tasks happen to complete; in particular any parallel run equals the
sequential computation. -/
theorem connectivity_deterministic (cat : Catalog) (m : Mesh)
    (t1 t2 : Nat) (s1 s2 : List Nat)
    (ht1 : 0 < t1) (ht2 : 0 < t2)
    (hs1 : s1.Perm (List.range t1)) (hs2 : s2.Perm (List.range t2)) :
    computeConnectivityPar cat m t1 s1 = computeConnectivityPar cat m t2 s2 ∧
    computeConnectivityPar cat m t1 s1 = computeConnectivity cat m := by
  have h1 := computeConnectivityPar_eq cat m t1 s1 ht1 hs1
  have h2 := computeConnectivityPar_eq cat m t2 s2 ht2 hs2
  exact ⟨h1.trans h2.symm, h1⟩

/-- Witness for C1: the two-triangle mesh computed with 2 worker threads
(chunks completing in reversed order) and with 8 worker threads (reversed
completion), both equal to the sequential result. -/
theorem connectivity_deterministic_witness :
    ((0 : Nat) < 2 ∧ (0 : Nat) < 8 ∧
      ([1, 0] : List Nat).Perm (List.range 2) ∧
      ([7, 6, 5, 4, 3, 2, 1, 0] : List Nat).Perm (List.range 8)) ∧
    (computeConnectivityPar triCatalog triMesh 2 [1, 0] =
        computeConnectivityPar triCatalog triMesh 8 [7, 6, 5, 4, 3, 2, 1, 0] ∧
     computeConnectivityPar triCatalog triMesh 2 [1, 0] =
        computeConnectivity triCatalog triMesh) :=
  ⟨⟨by decide, by decide, by decide, by decide⟩,
   connectivity_deterministic triCatalog triMesh 2 8 [1, 0] [7, 6, 5, 4, 3, 2, 1, 0]
     (by decide) (by decide) (by decide) (by decide)⟩

end Connect
